import Mathlib

/-!
Formal model of the state-mirror patch-based synchronization engine.

The TypeScript source is embedded shallowly: JSON-like runtime values become
the inductive type JSValue; the classes DiffEngine, ConflictEngine,
OfflineQueue and StateMirrorWatcher become namespaces of pure functions; and
in-place mutation of the watched object becomes functional update.
JavaScript numbers are modelled as integers (the code under study only
compares and adds them); NaN and undefined are not modelled except where
noted at the definition concerned.
-/

/-- A JavaScript runtime value as handled by the library: null, booleans,
numbers, strings, Date objects (identified by their epoch milliseconds),
arrays, and plain objects (ordered own enumerable string-keyed fields). -/
inductive JSValue where
  | null : JSValue
  | bool (b : Bool) : JSValue
  | num (n : Int) : JSValue
  | str (s : String) : JSValue
  | date (ms : Int) : JSValue
  | arr (elems : List JSValue) : JSValue
  | obj (fields : List (String × JSValue)) : JSValue

/-- The character of a decimal digit, as produced by JavaScript number to
string conversion. -/
def digitChar (d : Nat) : Char := Char.ofNat (48 + d)

/-- Decimal rendering of a natural number, modelling the JavaScript string
conversion used for array indices (for example by Object.keys on arrays). -/
def natToStr (n : Nat) : String :=
  if n = 0 then "0" else ⟨((Nat.digits 10 n).reverse.map digitChar)⟩

theorem digitChar_inj {a b : Nat} (ha : a < 10) (hb : b < 10)
    (h : digitChar a = digitChar b) : a = b := by
  interval_cases a <;> interval_cases b <;> first | rfl | (exfalso; exact absurd h (by decide))

theorem map_digitChar_inj : ∀ {l1 l2 : List Nat}, (∀ d ∈ l1, d < 10) →
    (∀ d ∈ l2, d < 10) → l1.map digitChar = l2.map digitChar → l1 = l2 := by
  intro l1
  induction l1 with
  | nil => intro l2 _ _ h; cases l2 <;> simp_all
  | cons a t ih =>
    intro l2 h1 h2 h
    cases l2 with
    | nil => simp_all
    | cons b t2 =>
      simp only [List.map_cons, List.cons.injEq] at h
      have hab : a = b :=
        digitChar_inj (h1 a (by simp)) (h2 b (by simp)) h.1
      have := ih (fun d hd => h1 d (by simp [hd])) (fun d hd => h2 d (by simp [hd])) h.2
      simp [hab, this]

theorem natToStr_inj : ∀ {a b : Nat}, natToStr a = natToStr b → a = b := by
  have digs : ∀ n : Nat, n ≠ 0 →
      (⟨((Nat.digits 10 n).map digitChar).reverse⟩ : String) = "0" → False := by
    intro n hn h
    have hchars : ((Nat.digits 10 n).map digitChar) = ['0'] := by
      have h2 := congrArg (fun s : String => s.data.reverse) h
      simpa using h2
    have h0 : ('0' : Char) = digitChar 0 := by decide
    have hd : Nat.digits 10 n = [0] := by
      apply map_digitChar_inj
        (fun d hd => Nat.digits_lt_base (by norm_num) hd)
        (by intro d hd; simp at hd; omega)
      simpa [h0] using hchars
    have := Nat.ofDigits_digits 10 n
    rw [hd] at this
    simp [Nat.ofDigits] at this
    exact hn this.symm
  intro a b h
  unfold natToStr at h
  by_cases ha : a = 0 <;> by_cases hb : b = 0 <;> simp [ha, hb] at h ⊢
  · exact absurd h.symm (fun hh => digs b hb hh)
  · exact absurd h (fun hh => digs a ha hh)
  · have hchars : (Nat.digits 10 a).map digitChar = (Nat.digits 10 b).map digitChar := by
      have h2 := congrArg (fun s : String => s.data.reverse) h
      simpa using h2
    have hd : Nat.digits 10 a = Nat.digits 10 b :=
      map_digitChar_inj
        (fun d hd => Nat.digits_lt_base (by norm_num) hd)
        (fun d hd => Nat.digits_lt_base (by norm_num) hd)
        hchars
    have h1 := Nat.ofDigits_digits 10 a
    have h2 := Nat.ofDigits_digits 10 b
    rw [hd] at h1
    omega

/-- Own enumerable fields of array elements as enumerated by Object.keys:
each element is keyed by its decimal index. -/
def enumFields (i : Nat) : List JSValue → List (String × JSValue)
  | [] => []
  | v :: vs => (natToStr i, v) :: enumFields (i + 1) vs

/-- Own enumerable key/value pairs of a value, as Object.keys plus indexing
would enumerate them: array elements keyed by decimal index, object fields
by name; every other value (including Date, which has no own enumerable
properties) yields the empty list. -/
def keyVals : JSValue → List (String × JSValue)
  | .obj fs => fs
  | .arr xs => enumFields 0 xs
  | _ => []

/-- The JavaScript typeof operator on the modelled values; note that
typeof null is "object", as in JavaScript. -/
def jsTypeof : JSValue → String
  | .null => "object"
  | .bool _ => "boolean"
  | .num _ => "number"
  | .str _ => "string"
  | .date _ => "object"
  | .arr _ => "object"
  | .obj _ => "object"

/-- Whether a value is JavaScript null (the loose a == null test of the
source; undefined is not part of the modelled value space). -/
def isNull : JSValue → Bool
  | .null => true
  | _ => false

/-- Array.isArray. -/
def isArr : JSValue → Bool
  | .arr _ => true
  | _ => false

/-- JavaScript strict equality (===) on modelled values: value equality on
primitives, reference equality on objects, arrays and Dates.  Reference
equality is modelled as false because the code under study only ever
compares values originating from distinct allocations (a deep-cloned
snapshot against the live tree, or a received patch against local data). -/
def jsEq : JSValue → JSValue → Bool
  | .null, .null => true
  | .bool a, .bool b => a == b
  | .num a, .num b => a == b
  | .str a, .str b => a == b
  | _, _ => false

mutual
/-- Structural size measure for termination of the recursive comparisons:
one unit per node, string keys not counted. -/
def vsize : JSValue → Nat
  | .arr xs => 1 + vsizeList xs
  | .obj fs => 1 + vsizeFields fs
  | _ => 1

/-- Size of a list of values (one extra unit per element). -/
def vsizeList : List JSValue → Nat
  | [] => 0
  | v :: vs => 1 + vsize v + vsizeList vs

/-- Size of a key/value list (one extra unit per entry, keys not counted). -/
def vsizeFields : List (String × JSValue) → Nat
  | [] => 0
  | kv :: fs => 1 + vsize kv.2 + vsizeFields fs
end

theorem vsizeFields_enumFields : ∀ (xs : List JSValue) (i : Nat),
    vsizeFields (enumFields i xs) = vsizeList xs := by
  intro xs
  induction xs with
  | nil => intro i; rfl
  | cons v vs ih => intro i; simp [enumFields, vsizeFields, vsizeList, ih]

theorem mem_vsizeFields_lt : ∀ {l : List (String × JSValue)} {k : String}
    {v : JSValue}, (k, v) ∈ l → vsize v < vsizeFields l := by
  intro l
  induction l with
  | nil => intro k v h; cases h
  | cons kv fs ih =>
    intro k v h
    rcases List.mem_cons.mp h with h | h
    · cases h; simp [vsizeFields]; omega
    · have := ih h; simp [vsizeFields]; omega

theorem keyVals_vsizeFields_lt : ∀ a : JSValue, vsizeFields (keyVals a) < vsize a := by
  intro a
  cases a <;> simp [keyVals, vsizeFields, vsize, vsizeFields_enumFields]

theorem lookup_mem {β : Type} : ∀ {l : List (String × β)} {k : String} {v : β},
    l.lookup k = some v → (k, v) ∈ l := by
  intro l
  induction l with
  | nil => intro k v h; simp [List.lookup] at h
  | cons kv rest ih =>
    intro k v h
    obtain ⟨k1, v1⟩ := kv
    rw [List.lookup] at h
    by_cases hk : k == k1
    · simp only [hk] at h
      have hkk : k = k1 := by simpa using hk
      subst hkk
      have hv : v1 = v := by injection h
      subst hv
      exact List.mem_cons_self _ _
    · simp only [hk] at h
      exact List.mem_cons_of_mem _ (ih h)

mutual
/-- DiffEngine.isEqual from the source: strict equality shortcut, null and
typeof guards, then comparison of the key sets and key-by-key recursive
comparison of the values. -/
def isEqual (a b : JSValue) : Bool :=
  if jsEq a b then true
  else if isNull a || isNull b then false
  else if jsTypeof a != jsTypeof b then false
  else if jsTypeof a != "object" then false
  else
    (keyVals a).length == (keyVals b).length && keysMatch (keyVals a) (keyVals b)
termination_by vsize a + vsize b
decreasing_by
  have h1 := keyVals_vsizeFields_lt a
  have h2 := keyVals_vsizeFields_lt b
  omega

/-- The loop over Object.keys(a) in DiffEngine.isEqual: every key of a must
be a key of b and the corresponding values must be deeply equal.  The value
for a key of a is taken from the iterated binding, which on JavaScript
objects (whose key sets are duplicate-free) coincides with the a[key]
lookup performed by the source. -/
def keysMatch : List (String × JSValue) → List (String × JSValue) → Bool
  | [], _ => true
  | (k, va) :: rest, kvB =>
    match h : kvB.lookup k with
    | some vb => isEqual va vb && keysMatch rest kvB
    | none => false
termination_by l kvB => vsizeFields l + vsizeFields kvB
decreasing_by
  all_goals
    first
      | (have h1 := mem_vsizeFields_lt (lookup_mem h); simp [vsizeFields]; omega)
      | (simp [vsizeFields]; omega)
      | simp [vsizeFields]
end

mutual
/-- DiffEngine.deepClone from the source: primitives returned as-is, Dates
rebuilt from their epoch time, arrays and objects rebuilt element-wise. -/
def deepClone : JSValue → JSValue
  | .null => .null
  | .bool b => .bool b
  | .num n => .num n
  | .str s => .str s
  | .date ms => .date ms
  | .arr xs => .arr (deepCloneList xs)
  | .obj fs => .obj (deepCloneFields fs)

/-- Element-wise clone of an array's contents. -/
def deepCloneList : List JSValue → List JSValue
  | [] => []
  | v :: vs => deepClone v :: deepCloneList vs

/-- Field-wise clone of an object's contents (own enumerable fields). -/
def deepCloneFields : List (String × JSValue) → List (String × JSValue)
  | [] => []
  | (k, v) :: fs => (k, deepClone v) :: deepCloneFields fs
end

mutual
theorem deepClone_eq : (v : JSValue) → deepClone v = v
  | .null => rfl
  | .bool _ => rfl
  | .num _ => rfl
  | .str _ => rfl
  | .date _ => rfl
  | .arr xs => by rw [deepClone, deepCloneList_eq xs]
  | .obj fs => by rw [deepClone, deepCloneFields_eq fs]

theorem deepCloneList_eq : (xs : List JSValue) → deepCloneList xs = xs
  | [] => rfl
  | v :: vs => by rw [deepCloneList, deepClone_eq v, deepCloneList_eq vs]

theorem deepCloneFields_eq : (fs : List (String × JSValue)) → deepCloneFields fs = fs
  | [] => rfl
  | (k, v) :: fs => by rw [deepCloneFields, deepClone_eq v, deepCloneFields_eq fs]
end

/-- JavaScript truthiness of a modelled value. -/
def truthy : JSValue → Bool
  | .null => false
  | .bool b => b
  | .num n => n != 0
  | .str s => s != ""
  | _ => true

/-- Property access current[key] on a modelled value: object fields by
name, array elements by strict decimal index (plus the length property),
string characters by index (plus length).  Dates, numbers, booleans and
null have no own indexable properties in the model (Date members are
functions, which are outside the modelled value space). -/
def jsIndex : JSValue → String → Option JSValue
  | .obj fs, k => fs.lookup k
  | .arr xs, k =>
    if k == "length" then some (.num xs.length)
    else
      match k.toNat? with
      | some n => if natToStr n == k then xs.get? n else none
      | none => none
  | .str s, k =>
    if k == "length" then some (.num s.length)
    else
      match k.toNat? with
      | some n =>
        if natToStr n == k then (s.data.get? n).map (fun c => .str (String.singleton c))
        else none
      | none => none
  | _, _ => none

/-- String.prototype.split with a single-character separator, by structural
recursion over the character list (observably the same as String.splitOn,
which is defined by well-founded recursion and therefore avoided). -/
def splitChar (sep : Char) : List Char → List (List Char)
  | [] => [[]]
  | c :: rest =>
    match splitChar sep rest with
    | [] => [[]]
    | s :: ss => if c = sep then [] :: s :: ss else (c :: s) :: ss

/-- One step of the reduce in DiffEngine.getPathValue: step only through a
truthy value with a defined property, yielding undefined (none)
otherwise. -/
def pathStep (cur : Option JSValue) (k : String) : Option JSValue :=
  match cur with
  | some c => if truthy c then jsIndex c k else none
  | none => none

/-- DiffEngine.getPathValue from the source: split the dotted path and
reduce with pathStep. -/
def getPathValue (v : JSValue) (path : String) : Option JSValue :=
  ((splitChar '.' path.data).map (fun l => (⟨l⟩ : String))).foldl pathStep (some v)

/-- DiffEngine.isEqual lifted to possibly-undefined arguments, exactly as
the source calls it on getPathValue results: undefined equals only
undefined (via the === shortcut; a defined/undefined mix is rejected by the
a == null guard, which in JavaScript is also true for undefined). -/
def optIsEqual : Option JSValue → Option JSValue → Bool
  | none, none => true
  | none, some _ => false
  | some _, none => false
  | some a, some b => isEqual a b

/-- A JSON-Patch style operation as declared in the source types: an op
name, a pointer path, an optional value and an optional source path (the
field named from in the source, renamed here because from is a Lean
keyword). -/
structure Operation where
  op : String
  path : String
  value : Option JSValue := none
  fromPath : Option String := none

/-- fast-json-patch escapePathComponent: tilde becomes tilde-zero and slash
becomes tilde-one (written here character by character, which agrees with
the two sequential global replacements of the library). -/
def escapePathComponent (s : String) : String :=
  s.data.foldl
    (fun acc c =>
      acc ++ (if c = '~' then "~0" else if c = '/' then "~1" else String.singleton c))
    ""

theorem vsizeFields_append : ∀ (a b : List (String × JSValue)),
    vsizeFields (a ++ b) = vsizeFields a + vsizeFields b := by
  intro a b
  induction a with
  | nil => simp [vsizeFields]
  | cons kv t ih => simp [vsizeFields, ih]; omega

theorem vsizeFields_reverse : ∀ (l : List (String × JSValue)),
    vsizeFields l.reverse = vsizeFields l := by
  intro l
  induction l with
  | nil => rfl
  | cons kv t ih => simp [vsizeFields, List.reverse_cons, vsizeFields_append, ih]; omega

/-- Zero-padded decimal rendering of a field of the ISO date format. -/
def pad (w : Nat) (n : Nat) : String :=
  (⟨List.replicate (w - (natToStr n).length) (Char.ofNat 48)⟩ : String) ++ natToStr n

/-- The year field of Date.prototype.toISOString: four digits for years 0
to 9999, otherwise the expanded six-digit form with an explicit sign. -/
def isoYear (y : Int) : String :=
  if 0 ≤ y ∧ y ≤ 9999 then pad 4 y.toNat
  else if y < 0 then "-" ++ pad 6 (-y).toNat
  else "+" ++ pad 6 y.toNat

/-- Proleptic Gregorian civil date (year, month, day) of a day count from
the Unix epoch (the standard days-from-civil inverse used to render
JavaScript Date fields). -/
def civilFromDays (z0 : Int) : Int × Nat × Nat :=
  let z := z0 + 719468
  let era : Int := z.fdiv 146097
  let doe : Nat := (z - era * 146097).toNat
  let yoe : Nat := (doe - doe / 1460 + doe / 36524 - doe / 146096) / 365
  let doy : Nat := doe - (365 * yoe + yoe / 4 - yoe / 100)
  let mp : Nat := (5 * doy + 2) / 153
  let d : Nat := doy - (153 * mp + 2) / 5 + 1
  let m : Nat := if mp < 10 then mp + 3 else mp - 9
  ((yoe : Int) + era * 400 + (if m ≤ 2 then 1 else 0), m, d)

/-- Date.prototype.toJSON (via toISOString): the ISO 8601 UTC rendering of
the epoch-millisecond value, always ending in Z. -/
def dateToISO (ms : Int) : String :=
  let days : Int := ms.fdiv 86400000
  let msod : Nat := (ms - days * 86400000).toNat
  let c := civilFromDays days
  isoYear c.1 ++ "-" ++ pad 2 c.2.1 ++ "-" ++ pad 2 c.2.2 ++
    "T" ++ pad 2 (msod / 3600000) ++ ":" ++ pad 2 (msod / 60000 % 60) ++
    ":" ++ pad 2 (msod / 1000 % 60) ++ "." ++ pad 3 (msod % 1000) ++ "Z"

/-- The toJSON conversion at the entry of fast-json-patch _generate
(if typeof obj.toJSON is a function, obj becomes obj.toJSON()): within the
modelled value space only Date owns a toJSON member, and it returns the ISO
rendering of the instant, a primitive string. -/
def toJSONconv : JSValue → JSValue
  | .date ms => .str (dateToISO ms)
  | v => v

/-- fast-json-patch _objectKeys combined with property access, as _generate
uses it on both trees: arrays enumerate decimal indices, objects their
field names, and a primitive string (reached when toJSON has converted a
Date) enumerates the decimal indices of its characters, as Object.keys does
on strings; every other value has no own enumerable properties. -/
def jsKeyVals : JSValue → List (String × JSValue)
  | .str s => enumFields 0 (s.data.map (fun c => .str (String.singleton c)))
  | v => keyVals v

theorem mem_enumFields_val : ∀ {xs : List JSValue} {i : Nat} {k : String} {v : JSValue},
    (k, v) ∈ enumFields i xs → v ∈ xs := by
  intro xs
  induction xs with
  | nil => intro i k v h; cases h
  | cons x rest ih =>
    intro i k v h
    rw [enumFields] at h
    rcases List.mem_cons.mp h with h | h
    · cases h; exact List.mem_cons_self _ _
    · exact List.mem_cons_of_mem _ (ih h)

theorem vsize_toJSONconv : ∀ v : JSValue, vsize (toJSONconv v) = vsize v := by
  intro v
  cases v <;> rfl

theorem jsKeyVals_kvsize_lt : ∀ {a : JSValue}, jsTypeof a = "object" →
    isNull a = false → vsizeFields (jsKeyVals a) < vsize a := by
  intro a hto hno
  cases a with
  | date ms => simp [jsKeyVals, keyVals, vsizeFields, vsize]
  | arr xs => exact keyVals_vsizeFields_lt (.arr xs)
  | obj fs => exact keyVals_vsizeFields_lt (.obj fs)
  | null => simp [isNull] at hno
  | bool b => simp [jsTypeof] at hto
  | num n => simp [jsTypeof] at hto
  | str s => simp [jsTypeof] at hto

theorem mem_jsKeyVals_object_vsize_lt : ∀ {a : JSValue} {k : String} {v : JSValue},
    (k, v) ∈ jsKeyVals a → jsTypeof v = "object" → vsize v < vsize a := by
  intro a k v hm hto
  cases a with
  | str s =>
    rw [jsKeyVals] at hm
    have hv := mem_enumFields_val hm
    obtain ⟨c, _, hc⟩ := List.mem_map.mp hv
    rw [← hc] at hto
    simp [jsTypeof] at hto
  | arr xs =>
    have h1 := mem_vsizeFields_lt (l := keyVals (.arr xs)) hm
    have h2 := keyVals_vsizeFields_lt (.arr xs)
    omega
  | obj fs =>
    have h1 := mem_vsizeFields_lt (l := keyVals (.obj fs)) hm
    have h2 := keyVals_vsizeFields_lt (.obj fs)
    omega
  | null => cases hm
  | bool b => cases hm
  | num n => cases hm
  | date ms => cases hm

/-- The forward loop over the new tree's keys in _generate: keys the old
tree does not own become add operations (every modelled value is defined,
so the undefined guard of the source is always passed). -/
def genAdds (kvOld kvNew : List (String × JSValue)) (path : String) : List Operation :=
  kvNew.foldr
    (fun kv acc =>
      if (kvOld.lookup kv.1).isNone then
        { op := "add", path := path ++ "/" ++ escapePathComponent kv.1,
          value := some (deepClone kv.2) : Operation } :: acc
      else acc)
    []

mutual
/-- fast-json-patch _generate as invoked by jsonpatch.compare (without the
invertible test operations).  On entry the obj side is converted through
its toJSON member when it has one (toJSONconv) -- so a Date on the new side
becomes its ISO string, whose character indices Object.keys then
enumerates.  Keys of the old tree are visited in reverse order pushing
remove/replace/recursive operations, then keys new to the converted obj
tree are appended as add operations unless nothing was deleted and the key
counts agree. -/
def generateOps (mirror obj0 : JSValue) (path : String) : List Operation :=
  let obj := toJSONconv obj0
  let r := genOld (isArr mirror) obj path (jsKeyVals mirror).reverse
  if !r.2 && (jsKeyVals obj).length == (jsKeyVals mirror).length then r.1
  else r.1 ++ genAdds (jsKeyVals mirror) (jsKeyVals obj) path
termination_by vsizeFields (jsKeyVals mirror) + vsize (toJSONconv obj0) + 1
decreasing_by
  have h3 := vsizeFields_reverse (jsKeyVals mirror)
  omega

/-- The backwards loop over the old tree's keys in _generate, receiving the
already-converted obj tree: a key present in both trees recurses when both
values are non-null same-kind objects and otherwise emits a replace when
strictly different; a key absent from the converted obj tree emits a
remove when the two trees are both arrays or both non-arrays, and
otherwise a replace of the whole parent path carrying the converted obj.
The Bool result is the deleted flag. -/
def genOld (mirrorIsArr : Bool) (obj : JSValue) (path : String) :
    List (String × JSValue) → List Operation × Bool
  | [] => ([], false)
  | (key, oldVal) :: rest =>
    let r := genOld mirrorIsArr obj path rest
    match h : (jsKeyVals obj).lookup key with
    | some newVal =>
      if hB : jsTypeof oldVal == "object" && !(isNull oldVal) && jsTypeof newVal == "object"
          && !(isNull newVal) && (isArr oldVal == isArr newVal) then
        (generateOps oldVal newVal (path ++ "/" ++ escapePathComponent key) ++ r.1, r.2)
      else
        if jsEq oldVal newVal then r
        else ({ op := "replace", path := path ++ "/" ++ escapePathComponent key,
                value := some (deepClone newVal) } :: r.1, r.2)
    | none =>
      if mirrorIsArr == isArr obj then
        ({ op := "remove", path := path ++ "/" ++ escapePathComponent key } :: r.1, true)
      else
        ({ op := "replace", path := path, value := some obj } :: r.1, r.2)
termination_by l => vsizeFields l + vsize obj
decreasing_by
  all_goals
    first
      | (simp [vsizeFields]; omega)
      | (simp [vsizeFields]; done)
      | (have hb := hB
         simp only [Bool.and_eq_true, beq_iff_eq] at hb
         have hA := jsKeyVals_kvsize_lt hb.1.1.1.1 (by simpa using hb.1.1.1.2)
         have hD := mem_jsKeyVals_object_vsize_lt (lookup_mem h) hb.1.1.2
         have hC := vsize_toJSONconv newVal
         simp [vsizeFields]
         omega)
end

/-- jsonpatch.compare: operations transforming tree1 into tree2, starting
from the root path. -/
def jsonCompare (tree1 tree2 : JSValue) : List Operation :=
  generateOps tree1 tree2 ""

/-- The result type of DiffEngine.generatePatch. -/
structure DiffResult where
  operations : List Operation
  hasChanges : Bool

namespace DiffEngine

/-- jsonpatch.compare applied to the two singleton wrapper objects built in
DiffEngine.generatePathPatch.  When both values are defined this is the
plain comparison; when one side is undefined the wrapper object still owns
the key, and the library emits a single remove (old value defined, new
undefined) or replace (old undefined, new defined) at the wrapped key, as
traced from the undefined guards of _generate. -/
def singleCompare (p : String) : Option JSValue → Option JSValue → List Operation
  | some a, some b => jsonCompare (.obj [(p, a)]) (.obj [(p, b)])
  | some _, none => [{ op := "remove", path := "/" ++ escapePathComponent p }]
  | none, some b =>
    [{ op := "replace", path := "/" ++ escapePathComponent p, value := some (deepClone b) }]
  | none, none => []

/-- DiffEngine.generatePathPatch from the source: for each configured
dotted path, extract the previous and current values, skip the path when
they are deeply equal, and otherwise re-root the operations produced by
comparing the singleton wrappers by prefixing the dotted path. -/
def generatePathPatch (previousState currentState : JSValue)
    (paths : List String) : List Operation :=
  paths.foldr
    (fun p acc =>
      (if optIsEqual (getPathValue previousState p) (getPathValue currentState p) then []
       else
         (singleCompare p (getPathValue previousState p) (getPathValue currentState p)).map
           (fun op =>
             { op with path := if op.path == "" then "/" ++ p else "/" ++ p ++ op.path }))
      ++ acc)
    []

/-- DiffEngine.generatePatch from the source.  The previous snapshot is
passed explicitly (none models the null previousState field); the function
returns the diff result together with the new snapshot, which the source
stores by deep-cloning the current state.  With no prior snapshot the call
only establishes the baseline; otherwise it diffs either the configured
paths (when a non-empty list is given) or the whole object. -/
def generatePatch (previousState : Option JSValue) (currentState : JSValue)
    (paths : Option (List String)) : DiffResult × Option JSValue :=
  match previousState with
  | none => ({ operations := [], hasChanges := false }, some (deepClone currentState))
  | some pv =>
    let operations :=
      match paths with
      | some ps =>
        if ps.length > 0 then generatePathPatch pv currentState ps
        else jsonCompare pv currentState
      | none => jsonCompare pv currentState
    ({ operations := operations, hasChanges := operations.length != 0 },
     some (deepClone currentState))

end DiffEngine

/-- A patch as declared in the source types: identifier, wall-clock
timestamp, author source, target instance, operation list, per-source
version and metadata (an absent metadata field is the empty mapping). -/
structure Patch where
  id : String
  timestamp : Int
  source : String
  target : String
  operations : List Operation
  version : Int
  metadata : List (String × JSValue) := []

/-- A conflict resolver as declared in the source types (the instance
argument is dropped: no resolver defined by the library reads it, and a
custom resolver is modelled as already closed over its instance). -/
def Resolver : Type := Patch → Patch → Patch

namespace ConflictEngine

/-- ConflictEngine.lastWriteWinsResolver from the source: the localPatch patch
wins exactly when its timestamp is greater than or equal to the incoming
timestamp. -/
def lastWriteWinsResolver (localPatch incoming : Patch) : Patch :=
  if localPatch.timestamp ≥ incoming.timestamp then localPatch else incoming

/-- ConflictEngine.resolveConflict from the source: the resolver actually
used is the explicitly passed one, else the one configured on the instance,
else the default last-write-wins resolver (the try/catch fallback of the
source is unreachable in the model because modelled resolvers are total
functions). -/
def resolveConflict (customResolver : Option Resolver)
    (configResolver : Option Resolver) (localPatch incoming : Patch) : Patch :=
  match customResolver with
  | some r => r localPatch incoming
  | none =>
    match configResolver with
    | some r => r localPatch incoming
    | none => lastWriteWinsResolver localPatch incoming

/-- ConflictEngine.mergeResolver from the source: a fresh patch whose
operations are the concatenation of both inputs, with a derived id, the
later timestamp, the localPatch source and target, version one past the maximum,
and merged metadata tags. -/
def mergeResolver (localPatch incoming : Patch) : Patch :=
  { id := localPatch.id ++ "-" ++ incoming.id ++ "-merged"
    timestamp := max localPatch.timestamp incoming.timestamp
    source := localPatch.source
    target := localPatch.target
    operations := localPatch.operations ++ incoming.operations
    version := max localPatch.version incoming.version + 1
    metadata := localPatch.metadata ++ incoming.metadata ++
      [("merged", .bool true),
       ("originalPatches", .arr [.str localPatch.id, .str incoming.id])] }

/-- ConflictEngine.getOperationPath from the source (op.path, with the
falsy-to-empty coercion being the identity on the modelled string). -/
def getOperationPath (op : Operation) : String := op.path

/-- ConflictEngine.extractPaths from the source. -/
def extractPaths (operations : List Operation) : List String :=
  operations.map getOperationPath

/-- ConflictEngine.hasConflicts from the source: the two operation path
sets intersect. -/
def hasConflicts (localPatch incoming : Patch) : Bool :=
  (extractPaths localPatch.operations).any
    (fun p => (extractPaths incoming.operations).contains p)

/-- One step of the incoming-operation loop of pathBasedResolver: replace
the first localPatch operation at the conflicting path, or append. -/
def replaceOrPush (resolved : List Operation) (incomingOp : Operation) : List Operation :=
  match resolved.findIdx? (fun op => getOperationPath op == getOperationPath incomingOp) with
  | some index => resolved.set index incomingOp
  | none => resolved ++ [incomingOp]

/-- ConflictEngine.pathBasedResolver from the source: with no conflicting
paths it defers to mergeResolver; otherwise it starts from the localPatch
operations and folds the incoming ones in, appending non-conflicting
operations and, for conflicting paths, replacing the localPatch operation when
there is no localPatch operation at that path or the incoming patch is strictly
newer. -/
def pathBasedResolver (localPatch incoming : Patch) : Patch :=
  let localPaths := extractPaths localPatch.operations
  let incomingPaths := extractPaths incoming.operations
  let conflictingPaths := localPaths.filter (fun p => incomingPaths.contains p)
  if conflictingPaths.length = 0 then mergeResolver localPatch incoming
  else
    let resolvedOperations := incoming.operations.foldl
      (fun resolved incomingOp =>
        if !(conflictingPaths.contains (getOperationPath incomingOp)) then
          resolved ++ [incomingOp]
        else
          if (localPatch.operations.find?
                (fun op => getOperationPath op == getOperationPath incomingOp)).isNone
              || incoming.timestamp > localPatch.timestamp then
            replaceOrPush resolved incomingOp
          else resolved)
      localPatch.operations
    { id := localPatch.id ++ "-" ++ incoming.id ++ "-path-resolved"
      timestamp := max localPatch.timestamp incoming.timestamp
      source := localPatch.source
      target := localPatch.target
      operations := resolvedOperations
      version := max localPatch.version incoming.version + 1
      metadata := localPatch.metadata ++
        [("pathResolved", .bool true),
         ("conflictingPaths", .arr (conflictingPaths.map JSValue.str))] }

end ConflictEngine

/-- fast-json-patch unescapePathComponent, character-pair decoding of ~1 to
slash and ~0 to tilde (equivalent to the two sequential global
replacements of the library). -/
def unescapeChars : List Char → List Char
  | [] => []
  | '~' :: '1' :: rest => '/' :: unescapeChars rest
  | '~' :: '0' :: rest => '~' :: unescapeChars rest
  | c :: rest => c :: unescapeChars rest

/-- Unescape one JSON-pointer path segment. -/
def unescapeSeg (s : String) : String := ⟨unescapeChars s.data⟩

/-- Assignment obj[key] = v on an object: an existing field is overwritten
in place, a new field is appended, as JavaScript property order dictates. -/
def setField : List (String × JSValue) → String → JSValue → List (String × JSValue)
  | [], k, v => [(k, v)]
  | (k1, v1) :: rest, k, v =>
    if k1 == k then (k1, v) :: rest else (k1, v1) :: setField rest k v

/-- Strict decimal array index parse: the segment must be the canonical
decimal rendering of the index (JavaScript array index keys). -/
def arrIndex (key : String) : Option Nat :=
  match key.toNat? with
  | some n => if natToStr n == key then some n else none
  | none => none

/-- The final objOps step of fast-json-patch applyOperation on a plain
object, without validation: add and replace assign the key (whether or not
it already exists), remove deletes it; other operation names are modelled
as failures (an unknown op makes the library call undefined, and the
repository never routes move/copy/test operations through this path). -/
def applyAtObj (fs : List (String × JSValue)) (key : String) (opName : String)
    (value : Option JSValue) : Option (List (String × JSValue)) :=
  match opName with
  | "add" => value.map (setField fs key)
  | "replace" => value.map (setField fs key)
  | "remove" => some (fs.filter (fun kv => kv.1 != key))
  | _ => none

/-- The final arrOps step of fast-json-patch applyOperation on an array:
the dash key denotes the length, add inserts at an index up to the length,
remove and replace require an existing index.  Out-of-range writes, which
the unvalidated library turns into sparse-array corner cases never exercised
by the repository, are modelled as failures. -/
def applyAtArr (xs : List JSValue) (key : String) (opName : String)
    (value : Option JSValue) : Option (List JSValue) :=
  let idx : Option Nat := if key == "-" then some xs.length else arrIndex key
  match idx, opName with
  | some i, "add" =>
    if i ≤ xs.length then value.map (fun v => xs.insertIdx i v) else none
  | some i, "remove" => if i < xs.length then some (xs.eraseIdx i) else none
  | some i, "replace" => if i < xs.length then value.map (fun v => xs.set i v) else none
  | _, _ => none

/-- The pointer walk of fast-json-patch applyOperation in mutate mode
without validation: descend through existing container members and perform
the final step in place; a missing or non-container intermediate member is
a failure, as the strict-mode library throws there.  Whole-document
operations (empty path) are outside the repository's use and modelled as
failures. -/
def applyWalk (v : JSValue) (segs : List String) (opName : String)
    (value : Option JSValue) : Option JSValue :=
  match segs with
  | [] => none
  | [s] =>
    let key := unescapeSeg s
    match v with
    | .obj fs => (applyAtObj fs key opName value).map JSValue.obj
    | .arr xs => (applyAtArr xs key opName value).map JSValue.arr
    | _ => none
  | s :: rest =>
    let key := unescapeSeg s
    match v with
    | .obj fs =>
      match fs.lookup key with
      | some child => (applyWalk child rest opName value).map (fun c => .obj (setField fs key c))
      | none => none
    | .arr xs =>
      match arrIndex key with
      | some i =>
        match xs.get? i with
        | some child => (applyWalk child rest opName value).map (fun c => .arr (xs.set i c))
        | none => none
      | none => none
    | _ => none

/-- The path segments the applyOperation pointer walk visits: the slash
split components of the path with the leading empty component dropped (the
t = 1 start of the library loop). -/
def pathSegments (path : String) : List String :=
  ((splitChar '/' path.data).map (fun l => (⟨l⟩ : String))).drop 1

/-- One fast-json-patch operation applied to the document. -/
def applyOperation (st : JSValue) (op : Operation) : Option JSValue :=
  applyWalk st (pathSegments op.path) op.op op.value

/-- jsonpatch.applyPatch in mutate mode, as both StateMirrorWatcher.update
and StateMirrorWatcher.applyPatch invoke it: operations are applied to the
live document one at a time, and a failing operation aborts the run by
throwing, leaving the mutations of the earlier operations in place.  The
Bool records whether the whole list was applied (false models the throw
reaching the caller's catch). -/
def applyPatchMut : JSValue → List Operation → JSValue × Bool
  | st, [] => (st, true)
  | st, op :: rest =>
    match applyOperation st op with
    | some st1 => applyPatchMut st1 rest
    | none => (st, false)

/-- Persistent contents of the offline queue (the IndexedDB store keyed by
patch id) together with the flushInProgress flag of OfflineQueue. -/
structure QueueState where
  store : List Patch
  flushInProgress : Bool

/-- Timestamp order on patches, the comparator (a, b) => a.timestamp -
b.timestamp passed to the sort in OfflineQueue.flush. -/
def tsLe (a b : Patch) : Prop := a.timestamp ≤ b.timestamp

instance : DecidableRel tsLe := fun a b => Int.decLe a.timestamp b.timestamp

instance : IsTotal Patch tsLe := ⟨fun a b => le_total a.timestamp b.timestamp⟩

instance : IsTrans Patch tsLe := ⟨fun _ _ _ h1 h2 => le_trans h1 h2⟩

namespace OfflineQueue

/-- OfflineQueue.flush from the source.  A flush already in progress makes
the call warn and return without touching anything.  Otherwise the queued
patches are read, sorted by timestamp ascending (JavaScript sort is stable;
a stable insertion sort models it), each is sent in order -- send p models
whether the awaited sendFunction succeeds on p -- and the successful ones
are removed from the store by id.  The returned list is the sequence of
send attempts in order; the finally block clears flushInProgress. -/
def flush (send : Patch → Bool) (q : QueueState) : QueueState × List Patch :=
  if q.flushInProgress then (q, [])
  else if q.store.length = 0 then ({ q with flushInProgress := false }, [])
  else
    let sorted := List.insertionSort tsLe q.store
    let successfulPatches := sorted.filter send
    ({ store := q.store.filter
         (fun p => !(successfulPatches.any (fun s1 => s1.id == p.id)))
       flushInProgress := false },
     sorted)

end OfflineQueue

/-- An onReceive plugin hook as the processPlugins loop treats it: given
the current processed data (a patch or null), it returns undefined (keep
the current data, modelled as the outer none) or a new value (a patch or
null, modelled as some). -/
def RecvHook : Type := Option Patch → Option (Option Patch)

/-- A broadcast envelope as declared in the source types, with the data
payload specialised to the patch messages the coordinator handles. -/
structure BroadcastMessage where
  type : String
  data : Option Patch
  source : String
  timestamp : Int

namespace Broadcaster

/-- Broadcaster.handleMessage reduced to its observable outcome: whether
the registered handlers are notified.  Messages from the own source id are
ignored, and structurally invalid messages are dropped; of the
isValidMessage checks only the presence of data is not already guaranteed
by the modelled message type. -/
def handleMessageDelivers (sourceId : String) (message : BroadcastMessage) : Bool :=
  if message.source == sourceId then false
  else if message.data.isNone then false
  else true

end Broadcaster

namespace StateMirrorWatcher

/-- StateMirrorWatcher.processPlugins for the onReceive hook: fold the
hooks over the processed data, keeping the current data when a hook
returns undefined; a hook that throws is caught and also leaves the data
unchanged, so such a hook is modelled as returning undefined. -/
def processPlugins (hooks : List RecvHook) (x : Option Patch) : Option Patch :=
  hooks.foldl (fun acc h => (h acc).getD acc) x

/-- StateMirrorWatcher.getCurrentPatch from the source: the comment says it
would return the current patch being processed, and the body returns null
unconditionally. -/
def getCurrentPatch : Option Patch := none

/-- Observable outcome of StateMirrorWatcher.handlePatch: the state of the
watched object afterwards, the patch handed to applyPatch (none when the
message was discarded), whether conflict resolution ran (the conflict event
was emitted), and whether the receive hooks were invoked. -/
structure HandleResult where
  state : JSValue
  applied : Option Patch
  conflictResolved : Bool
  hooksRan : Bool

/-- StateMirrorWatcher.handlePatch from the source: patches whose source is
the own sourceId are ignored before anything else; survivors go through the
onReceive plugin pipeline (null vetoes); then the result is checked for
conflicts against getCurrentPatch() and resolved via
ConflictEngine.resolveConflict (passing the instance, whose configured
resolver is the configResolver argument) before being applied.  Application
uses jsonpatch.applyPatch inside try/catch, so the resulting state is the
(possibly partially) mutated document whether or not application
succeeded. -/
def handlePatch (sourceId : String) (hooks : List RecvHook)
    (configResolver : Option Resolver) (st : JSValue) (p : Patch) : HandleResult :=
  if p.source == sourceId then
    { state := st, applied := none, conflictResolved := false, hooksRan := false }
  else
    match processPlugins hooks (some p) with
    | none => { state := st, applied := none, conflictResolved := false, hooksRan := true }
    | some processedPatch =>
      match getCurrentPatch with
      | some currentPatch =>
        if ConflictEngine.hasConflicts currentPatch processedPatch then
          let resolved :=
            ConflictEngine.resolveConflict none configResolver currentPatch processedPatch
          { state := (applyPatchMut st resolved.operations).1, applied := some resolved,
            conflictResolved := true, hooksRan := true }
        else
          { state := (applyPatchMut st processedPatch.operations).1,
            applied := some processedPatch, conflictResolved := false, hooksRan := true }
      | none =>
        { state := (applyPatchMut st processedPatch.operations).1,
          applied := some processedPatch, conflictResolved := false, hooksRan := true }

/-- Observable outcome of StateMirrorWatcher.update: the state of the
watched object, whether the error event was emitted, the operations of the
patch handed to the outbound pipeline (none when nothing was sent), and the
local version counter afterwards. -/
structure UpdateResult where
  state : JSValue
  errorEmitted : Bool
  broadcasted : Option (List Operation)
  version : Int

/-- StateMirrorWatcher.update from the source: a non-watching instance
returns immediately; otherwise the caller-supplied operations are applied
to the live state by jsonpatch.applyPatch inside try/catch.  On success a
patch with the incremented version and exactly these operations enters the
outbound pipeline (the onSend plugin pipeline and transport/queue choice
are outside this model); on a throw the error event is emitted, nothing is
broadcast, the version is not incremented, and the state keeps the
mutations of the operations that had already been applied. -/
def update (isWatching : Bool) (version : Int) (st : JSValue)
    (operations : List Operation) : UpdateResult :=
  if !isWatching then
    { state := st, errorEmitted := false, broadcasted := none, version := version }
  else
    let r := applyPatchMut st operations
    if r.2 then
      { state := r.1, errorEmitted := false, broadcasted := some operations,
        version := version + 1 }
    else
      { state := r.1, errorEmitted := true, broadcasted := none, version := version }

/-- StateMirrorWatcher.sync from the source: a non-watching instance does
nothing; otherwise DiffEngine.generatePatch is asked for the delta against
the previous snapshot under the configured paths, and only a result with
hasChanges makes a patch (identified here by its operations) enter the
outbound pipeline.  Returns the emitted operations (if any) and the diff
engine's new snapshot. -/
def sync (isWatching : Bool) (previousState : Option JSValue) (st : JSValue)
    (paths : Option (List String)) : Option (List Operation) × Option JSValue :=
  if !isWatching then (none, previousState)
  else
    let r := DiffEngine.generatePatch previousState st paths
    (if r.1.hasChanges then some r.1.operations else none, r.2)

end StateMirrorWatcher

/-- Duplicate-freeness of a key list. -/
def nodupKeys : List String → Bool
  | [] => true
  | k :: ks => !(ks.contains k) && nodupKeys ks

mutual
/-- Well-formedness of a modelled value, capturing what the JavaScript
runtime guarantees for every reachable object: key sets of objects are
duplicate-free, recursively. -/
def WFb : JSValue → Bool
  | .arr xs => WFbList xs
  | .obj fs => nodupKeys (fs.map Prod.fst) && WFbFields fs
  | _ => true

/-- Well-formedness of every element of an array. -/
def WFbList : List JSValue → Bool
  | [] => true
  | v :: vs => WFb v && WFbList vs

/-- Well-formedness of every field value of an object. -/
def WFbFields : List (String × JSValue) → Bool
  | [] => true
  | kv :: fs => WFb kv.2 && WFbFields fs
end

mutual
/-- Absence of Date values anywhere inside a value.  fast-json-patch
converts a Date on the new side of a diff through toJSON, so a Date member
makes even a self-diff non-empty; date-freeness is the condition under
which diffing a value against an identical snapshot is silent. -/
def dateFree : JSValue → Bool
  | .date _ => false
  | .arr xs => dateFreeList xs
  | .obj fs => dateFreeFields fs
  | _ => true

/-- Date-freeness of every element of an array. -/
def dateFreeList : List JSValue → Bool
  | [] => true
  | v :: vs => dateFree v && dateFreeList vs

/-- Date-freeness of every field value of an object. -/
def dateFreeFields : List (String × JSValue) → Bool
  | [] => true
  | kv :: fs => dateFree kv.2 && dateFreeFields fs
end

/-- Patch of the worked conflict example: local write of /x = 1 at
timestamp 100. -/
def c1Local : Patch :=
  { id := "local-patch", timestamp := 100, source := "s1", target := "app",
    operations := [{ op := "replace", path := "/x", value := some (.num 1) }],
    version := 1 }

/-- Patch of the worked conflict example: incoming write of /x = 2 at
timestamp 200. -/
def c1Incoming : Patch :=
  { id := "incoming-patch", timestamp := 200, source := "s2", target := "app",
    operations := [{ op := "replace", path := "/x", value := some (.num 2) }],
    version := 1 }

/-- A local patch strictly newer than its counterpart, for exercising the
tie-free branch of last-write-wins. -/
def c3Local : Patch :=
  { id := "a", timestamp := 100, source := "s1", target := "app",
    operations := [{ op := "replace", path := "/x", value := some (.num 1) }],
    version := 1 }

/-- An incoming patch older than its counterpart. -/
def c3Incoming : Patch :=
  { id := "b", timestamp := 50, source := "s2", target := "app",
    operations := [{ op := "replace", path := "/x", value := some (.num 2) }],
    version := 1 }

/-- A pending local patch writing /x, as update would stamp it. -/
def c2Pending : Patch :=
  { id := "pending", timestamp := 90, source := "me", target := "app",
    operations := [{ op := "replace", path := "/x", value := some (.num 1) }],
    version := 3 }

/-- An incoming remote patch writing the same path /x. -/
def c2Incoming : Patch :=
  { id := "remote", timestamp := 95, source := "peer", target := "app",
    operations := [{ op := "replace", path := "/x", value := some (.num 2) }],
    version := 2 }

/-- The watched object before the conflicting incoming patch arrives. -/
def c2State : JSValue := .obj [("x", .num 1)]

/-- Watched object for the partial-application run. -/
def c4State : JSValue := .obj [("a", .num 1)]

/-- An operation set whose first operation succeeds and whose second fails
(the intermediate member b does not exist). -/
def c4Ops : List Operation :=
  [{ op := "replace", path := "/a", value := some (.num 2) },
   { op := "replace", path := "/b/c", value := some (.num 3) }]

/-- Object as watched at watch() time. -/
def c5Init : JSValue := .obj [("x", .num 1)]

/-- The same object after a mutation between watch() and the first
sync(). -/
def c5Mutated : JSValue := .obj [("x", .num 2)]

/-- A watched object holding a Date member: fast-json-patch's toJSON
conversion makes even its self-diff non-empty. -/
def c5DateState : JSValue := .obj [("d", .date 100)]

/-- Queued patch that the demo send function delivers. -/
def c7Ok : Patch :=
  { id := "ok", timestamp := 7, source := "s1", target := "app",
    operations := [{ op := "replace", path := "/x", value := some (.num 1) }],
    version := 1 }

/-- Queued patch that the demo send function fails on. -/
def c7Bad : Patch :=
  { id := "bad", timestamp := 3, source := "s1", target := "app",
    operations := [{ op := "replace", path := "/y", value := some (.num 2) }],
    version := 2 }

/-- A queue with two pending patches and no flush in progress. -/
def c7Queue : QueueState := { store := [c7Ok, c7Bad], flushInProgress := false }

/-- A send outcome that succeeds exactly on the patch with id ok. -/
def c7Send : Patch → Bool := fun p => p.id == "ok"

/-- A queue caught while a flush is in progress. -/
def c8Queue : QueueState := { store := [c7Ok], flushInProgress := true }

/-- An incoming patch authored by the receiving instance itself. -/
def c9SelfPatch : Patch :=
  { id := "self", timestamp := 10, source := "me", target := "app",
    operations := [{ op := "replace", path := "/x", value := some (.num 9) }],
    version := 4 }

/-- A broadcast envelope whose source is the receiving instance itself. -/
def c9SelfMessage : BroadcastMessage :=
  { type := "patch", data := some c9SelfPatch, source := "me", timestamp := 11 }

theorem ne_of_length_ne {a b : String} (h : a.length ≠ b.length) : a ≠ b :=
  fun hh => h (congrArg String.length hh)

/-- C1: Under the default conflict policy (no custom resolver configured
and none passed), resolveConflict(local, incoming) returns the patch with
the later timestamp, and when the timestamps are equal it returns local; in
particular, for a local patch with timestamp 100 writing /x=1 and an
incoming patch with timestamp 200 writing /x=2, the resolved patch equals
the incoming one. -/
theorem C1_default_policy_last_write_wins :
    ∀ localPatch incoming : Patch,
      (incoming.timestamp < localPatch.timestamp →
        ConflictEngine.resolveConflict none none localPatch incoming = localPatch) ∧
      (localPatch.timestamp < incoming.timestamp →
        ConflictEngine.resolveConflict none none localPatch incoming = incoming) ∧
      (localPatch.timestamp = incoming.timestamp →
        ConflictEngine.resolveConflict none none localPatch incoming = localPatch) ∧
      ConflictEngine.resolveConflict none none c1Local c1Incoming = c1Incoming := by
  intro l i
  refine ⟨?_, ?_, ?_, ?_⟩
  · intro h
    have hge : l.timestamp ≥ i.timestamp := le_of_lt h
    simp [ConflictEngine.resolveConflict, ConflictEngine.lastWriteWinsResolver, hge]
  · intro h
    have hge : ¬(l.timestamp ≥ i.timestamp) := not_le.mpr h
    simp [ConflictEngine.resolveConflict, ConflictEngine.lastWriteWinsResolver, hge]
  · intro h
    have hge : l.timestamp ≥ i.timestamp := le_of_eq h.symm
    simp [ConflictEngine.resolveConflict, ConflictEngine.lastWriteWinsResolver, hge]
  · rfl

/-- Closed instance of C1: the worked example with timestamps 100 and 200
resolves to the incoming patch. -/
theorem C1_witness :
    c1Local.timestamp < c1Incoming.timestamp ∧
    ConflictEngine.resolveConflict none none c1Local c1Incoming = c1Incoming :=
  ⟨by decide, (C1_default_policy_last_write_wins c1Local c1Incoming).2.1 (by decide)⟩

/-- C3 fails on the code: under the default policy, resolving a local patch
that is newer than the incoming one returns the local input itself, so the
result's id equals the local id (not a fresh derived identifier) and its
version is not max(local.version, incoming.version) + 1. -/
theorem C3_counterexample :
    (ConflictEngine.resolveConflict none none c3Local c3Incoming).id = c3Local.id ∧
    (ConflictEngine.resolveConflict none none c3Local c3Incoming).version ≠
      max c3Local.version c3Incoming.version + 1 := by
  exact ⟨rfl, by decide⟩

theorem pathBased_cases :
    ∀ localPatch incoming : Patch,
      ConflictEngine.pathBasedResolver localPatch incoming =
        ConflictEngine.mergeResolver localPatch incoming ∨
      ((ConflictEngine.pathBasedResolver localPatch incoming).id =
          localPatch.id ++ "-" ++ incoming.id ++ "-path-resolved" ∧
        (ConflictEngine.pathBasedResolver localPatch incoming).version =
          max localPatch.version incoming.version + 1) := by
  intro l i
  unfold ConflictEngine.pathBasedResolver
  dsimp only []
  split
  · left; rfl
  · right; exact ⟨rfl, rfl⟩

/-- C3 amended: the merge and path-based resolvers return a fresh patch
whose derived id is distinct from both inputs' ids and whose version is
max(local.version, incoming.version) + 1; the default last-write-wins
resolver instead returns one of the two input patches unchanged (inputs are
never mutated: all resolvers are pure functions of their arguments). -/
theorem C3_amended :
    ∀ localPatch incoming : Patch,
      (ConflictEngine.mergeResolver localPatch incoming).id ≠ localPatch.id ∧
      (ConflictEngine.mergeResolver localPatch incoming).id ≠ incoming.id ∧
      (ConflictEngine.mergeResolver localPatch incoming).version =
        max localPatch.version incoming.version + 1 ∧
      (ConflictEngine.pathBasedResolver localPatch incoming).id ≠ localPatch.id ∧
      (ConflictEngine.pathBasedResolver localPatch incoming).id ≠ incoming.id ∧
      (ConflictEngine.pathBasedResolver localPatch incoming).version =
        max localPatch.version incoming.version + 1 := by
  intro l i
  have h7 : ("-merged" : String).length = 7 := rfl
  have h13 : ("-path-resolved" : String).length = 14 := rfl
  have h1 : ("-" : String).length = 1 := rfl
  have hm1 : (ConflictEngine.mergeResolver l i).id ≠ l.id := by
    apply ne_of_length_ne
    simp [ConflictEngine.mergeResolver, String.length_append, h7, h1]
    omega
  have hm2 : (ConflictEngine.mergeResolver l i).id ≠ i.id := by
    apply ne_of_length_ne
    simp [ConflictEngine.mergeResolver, String.length_append, h7, h1]
    omega
  have hm3 : (ConflictEngine.mergeResolver l i).version = max l.version i.version + 1 := rfl
  rcases pathBased_cases l i with hc | ⟨hid, hv⟩
  · rw [hc]
    exact ⟨hm1, hm2, hm3, hm1, hm2, hm3⟩
  · refine ⟨hm1, hm2, hm3, ?_, ?_, hv⟩
    · apply ne_of_length_ne
      rw [hid]
      simp [String.length_append, h13, h1]
      omega
    · apply ne_of_length_ne
      rw [hid]
      simp [String.length_append, h13, h1]
      omega

/-- C8: a flush() call made while a previous flush is still in progress
performs no sends and no queue modifications. -/
theorem C8_flush_not_reentrant :
    ∀ (send : Patch → Bool) (q : QueueState),
      q.flushInProgress = true → OfflineQueue.flush send q = (q, []) := by
  intro send q h
  simp [OfflineQueue.flush, h]

/-- Closed instance of C8 on a queue caught mid-flush. -/
theorem C8_witness :
    c8Queue.flushInProgress = true ∧
    OfflineQueue.flush c7Send c8Queue = (c8Queue, []) :=
  ⟨rfl, C8_flush_not_reentrant c7Send c8Queue rfl⟩

/-- C9: an incoming patch whose source equals the receiving instance's own
SourceId is discarded before hooks, conflict checking and application (the
state is untouched and nothing runs), and the broadcaster likewise drops
the enclosing message before notifying any handler. -/
theorem C9_self_echo_suppression :
    ∀ (sourceId : String) (hooks : List RecvHook) (configResolver : Option Resolver)
      (st : JSValue) (p : Patch) (m : BroadcastMessage),
      p.source = sourceId → m.source = sourceId →
      StateMirrorWatcher.handlePatch sourceId hooks configResolver st p =
        { state := st, applied := none, conflictResolved := false, hooksRan := false } ∧
      Broadcaster.handleMessageDelivers sourceId m = false := by
  intro sourceId hooks configResolver st p m hp hm
  constructor
  · simp [StateMirrorWatcher.handlePatch, hp]
  · simp [Broadcaster.handleMessageDelivers, hm]

/-- Closed instance of C9: a self-authored patch and message at the
instance with id me. -/
theorem C9_witness :
    c9SelfPatch.source = "me" ∧ c9SelfMessage.source = "me" ∧
    (StateMirrorWatcher.handlePatch "me" [] none c2State c9SelfPatch =
        { state := c2State, applied := none, conflictResolved := false, hooksRan := false } ∧
      Broadcaster.handleMessageDelivers "me" c9SelfMessage = false) :=
  ⟨rfl, rfl, C9_self_echo_suppression "me" [] none c2State c9SelfPatch c9SelfMessage rfl rfl⟩

/-- C2 against the code: the inbound handler structurally contains the
conflict branch, but getCurrentPatch() of the source returns null
unconditionally (its comment says it would return the current patch being
processed), so even an incoming patch that overlaps a just-stamped pending
local patch is applied directly, without conflict detection or
resolution. -/
theorem C2_code_bug_eval :
    ConflictEngine.hasConflicts c2Pending c2Incoming = true ∧
    StateMirrorWatcher.getCurrentPatch = none ∧
    StateMirrorWatcher.handlePatch "me" [] none c2State c2Incoming =
      { state := .obj [("x", .num 2)], applied := some c2Incoming,
        conflictResolved := false, hooksRan := true } := by
  refine ⟨rfl, rfl, rfl⟩

/-- C4 fails on the code: an operation set whose second operation fails
leaves the first operation's mutation in the watched object (the error is
reported, but the state is partially applied, not rolled back or
pre-validated). -/
theorem C4_counterexample :
    (StateMirrorWatcher.update true 0 c4State c4Ops).errorEmitted = true ∧
    (StateMirrorWatcher.update true 0 c4State c4Ops).state = .obj [("a", .num 2)] ∧
    (StateMirrorWatcher.update true 0 c4State c4Ops).state ≠ c4State := by
  refine ⟨rfl, rfl, ?_⟩
  intro h
  rw [show (StateMirrorWatcher.update true 0 c4State c4Ops).state =
    .obj [("a", .num 2)] from rfl] at h
  simp [c4State] at h

theorem applyPatchMut_prefix :
    ∀ (ops : List Operation) (st : JSValue),
      ∃ k, k ≤ ops.length ∧
        applyPatchMut st (ops.take k) = ((applyPatchMut st ops).1, true) ∧
        ((applyPatchMut st ops).2 = true → k = ops.length) := by
  intro ops
  induction ops with
  | nil =>
    intro st
    exact ⟨0, Nat.le_refl 0, rfl, fun _ => rfl⟩
  | cons op rest ih =>
    intro st
    cases hop : applyOperation st op with
    | some st1 =>
      obtain ⟨k, hk, happ, hsucc⟩ := ih st1
      refine ⟨k + 1, by simpa using hk, ?_, ?_⟩
      · simpa [applyPatchMut, hop] using happ
      · intro hs
        have : (applyPatchMut st1 rest).2 = true := by
          simpa [applyPatchMut, hop] using hs
        simp [hsucc this]
    | none =>
      refine ⟨0, Nat.zero_le _, ?_, ?_⟩
      · simp [applyPatchMut, hop]
      · simp [applyPatchMut, hop]

/-- C4 amended: operation application in update() is sequential, in place
and not all-or-nothing: the resulting state of the watched object is always
the successful application of a prefix of the operation set (the whole set
exactly when no error is reported), and a failure is contained -- the error
event is emitted and no patch enters the outbound pipeline -- rather than
thrown past the boundary. -/
theorem C4_amended :
    ∀ (version : Int) (st : JSValue) (ops : List Operation),
      (∃ k, k ≤ ops.length ∧
        applyPatchMut st (ops.take k) =
          ((StateMirrorWatcher.update true version st ops).state, true) ∧
        ((StateMirrorWatcher.update true version st ops).errorEmitted = false →
          k = ops.length)) ∧
      ((StateMirrorWatcher.update true version st ops).errorEmitted = true →
        (StateMirrorWatcher.update true version st ops).broadcasted = none) := by
  intro v st ops
  obtain ⟨k, hk, happ, hsucc⟩ := applyPatchMut_prefix ops st
  cases hres : (applyPatchMut st ops).2 with
  | true =>
    constructor
    · exact ⟨k, hk, by simpa [StateMirrorWatcher.update, hres] using happ,
        fun _ => hsucc hres⟩
    · simp [StateMirrorWatcher.update, hres]
  | false =>
    constructor
    · refine ⟨k, hk, by simpa [StateMirrorWatcher.update, hres] using happ, ?_⟩
      intro hfalse
      simp [StateMirrorWatcher.update, hres] at hfalse
    · simp [StateMirrorWatcher.update, hres]

/-- Closed instance of C4 amended at the two-operation failing run: the
state after the failure is the successful application of a strict prefix,
and nothing was broadcast. -/
theorem C4_witness :
    (∃ k, k ≤ c4Ops.length ∧
      applyPatchMut c4State (c4Ops.take k) =
        ((StateMirrorWatcher.update true 0 c4State c4Ops).state, true) ∧
      ((StateMirrorWatcher.update true 0 c4State c4Ops).errorEmitted = false →
        k = c4Ops.length)) ∧
    ((StateMirrorWatcher.update true 0 c4State c4Ops).errorEmitted = true →
      (StateMirrorWatcher.update true 0 c4State c4Ops).broadcasted = none) :=
  C4_amended 0 c4State c4Ops

/-- C7: during flush the queued patches are sent sorted by timestamp
ascending (the send sequence is a sorted permutation of the store), every
patch whose send succeeds is removed from the queue, every patch whose send
fails remains, and the flush lock is released (the store is keyed by patch
id, so the id column is duplicate-free). -/
theorem C7_flush_sorted_and_retained :
    ∀ (send : Patch → Bool) (q : QueueState),
      q.flushInProgress = false →
      (q.store.map Patch.id).Nodup →
      List.Sorted tsLe (OfflineQueue.flush send q).2 ∧
      (OfflineQueue.flush send q).2.Perm q.store ∧
      (∀ p ∈ q.store, (p ∈ (OfflineQueue.flush send q).1.store ↔ send p = false)) ∧
      (OfflineQueue.flush send q).1.flushInProgress = false := by
  intro send q hf hnodup
  by_cases hlen : q.store.length = 0
  · have hempty : q.store = [] := List.length_eq_zero.mp hlen
    simp [OfflineQueue.flush, hf, hlen, hempty]
  · have hid : ∀ a ∈ q.store, ∀ b ∈ q.store, a.id = b.id → a = b :=
      List.inj_on_of_nodup_map hnodup
    have hperm : (List.insertionSort tsLe q.store).Perm q.store :=
      List.perm_insertionSort tsLe q.store
    refine ⟨?_, ?_, ?_, ?_⟩
    · simp only [OfflineQueue.flush, hf, hlen]
      simpa using List.sorted_insertionSort tsLe q.store
    · simp only [OfflineQueue.flush, hf, hlen]
      simpa using hperm
    · intro p hp
      simp only [OfflineQueue.flush, hf, hlen]
      simp only [Bool.false_eq_true, if_false, List.mem_filter, Bool.not_eq_true]
      constructor
      · rintro ⟨-, hnone⟩
        by_contra hsend
        have hsend : send p = true := by
          cases hsp : send p
          · exact absurd hsp hsend
          · rfl
        have hmem : p ∈ (List.insertionSort tsLe q.store).filter send :=
          List.mem_filter.mpr ⟨hperm.symm.subset hp, hsend⟩
        have : ((List.insertionSort tsLe q.store).filter send).any
            (fun s1 => s1.id == p.id) = true :=
          List.any_eq_true.mpr ⟨p, hmem, by simp⟩
        simp [this] at hnone
      · intro hsend
        refine ⟨hp, ?_⟩
        suffices h : ((List.insertionSort tsLe q.store).filter send).any
            (fun s1 => s1.id == p.id) = false by simp [h]
        rw [List.any_eq_false]
        rintro s1 hs1
        have hs1m := List.mem_filter.mp hs1
        have hs1q : s1 ∈ q.store := hperm.subset hs1m.1
        intro hbeq
        have heq : s1 = p := hid s1 hs1q p hp (by simpa using hbeq)
        rw [heq] at hs1m
        rw [hsend] at hs1m
        exact absurd hs1m.2 (by simp)
    · simp [OfflineQueue.flush, hf, hlen]

/-- Closed instance of C7 on a two-patch queue where exactly one send
succeeds: the attempt order is sorted, and the failed patch is the one left
queued. -/
theorem C7_witness :
    c7Queue.flushInProgress = false ∧
    (c7Queue.store.map Patch.id).Nodup ∧
    (List.Sorted tsLe (OfflineQueue.flush c7Send c7Queue).2 ∧
      (OfflineQueue.flush c7Send c7Queue).2.Perm c7Queue.store ∧
      (∀ p ∈ c7Queue.store,
        (p ∈ (OfflineQueue.flush c7Send c7Queue).1.store ↔ c7Send p = false)) ∧
      (OfflineQueue.flush c7Send c7Queue).1.flushInProgress = false) :=
  ⟨rfl, by decide, C7_flush_sorted_and_retained c7Send c7Queue rfl (by decide)⟩

theorem nodupKeys_iff : ∀ l : List String, nodupKeys l = true ↔ l.Nodup := by
  intro l
  induction l with
  | nil => simp [nodupKeys]
  | cons k ks ih => simp [nodupKeys, List.nodup_cons, ih, List.elem_iff]

theorem WFbFields_mem : ∀ {fs : List (String × JSValue)} {k : String} {v : JSValue},
    WFbFields fs = true → (k, v) ∈ fs → WFb v = true := by
  intro fs
  induction fs with
  | nil => intro k v _ h; cases h
  | cons kv rest ih =>
    intro k v hwf h
    rw [WFbFields] at hwf
    rcases List.mem_cons.mp h with h | h
    · subst h
      exact (Bool.and_eq_true_iff.mp hwf).1
    · exact ih (Bool.and_eq_true_iff.mp hwf).2 h

theorem WFbList_mem : ∀ {xs : List JSValue} {v : JSValue},
    WFbList xs = true → v ∈ xs → WFb v = true := by
  intro xs
  induction xs with
  | nil => intro v _ h; cases h
  | cons x rest ih =>
    intro v hwf h
    rw [WFbList] at hwf
    rcases List.mem_cons.mp h with h | h
    · subst h
      exact (Bool.and_eq_true_iff.mp hwf).1
    · exact ih (Bool.and_eq_true_iff.mp hwf).2 h

theorem mem_enumFields_key : ∀ {xs : List JSValue} {i : Nat} {k : String} {v : JSValue},
    (k, v) ∈ enumFields i xs → ∃ j, i ≤ j ∧ k = natToStr j := by
  intro xs
  induction xs with
  | nil => intro i k v h; cases h
  | cons x rest ih =>
    intro i k v h
    rw [enumFields] at h
    rcases List.mem_cons.mp h with h | h
    · cases h; exact ⟨i, Nat.le_refl i, rfl⟩
    · obtain ⟨j, hj, hk⟩ := ih h
      exact ⟨j, by omega, hk⟩

theorem enumFields_keys_nodup : ∀ (xs : List JSValue) (i : Nat),
    ((enumFields i xs).map Prod.fst).Nodup := by
  intro xs
  induction xs with
  | nil => intro i; simp [enumFields]
  | cons x rest ih =>
    intro i
    rw [enumFields]
    simp only [List.map_cons, List.nodup_cons]
    refine ⟨?_, ih (i + 1)⟩
    intro hmem
    obtain ⟨⟨k, v⟩, hkv, hfst⟩ := List.mem_map.mp hmem
    obtain ⟨j, hj, hk⟩ := mem_enumFields_key hkv
    have hki : k = natToStr i := hfst
    have : i = j := natToStr_inj (by rw [← hki, hk])
    omega

theorem WF_mem : ∀ {a : JSValue} {k : String} {v : JSValue},
    WFb a = true → (k, v) ∈ keyVals a → WFb v = true := by
  intro a k v hw h
  cases a with
  | obj fs =>
    rw [WFb] at hw
    exact WFbFields_mem (Bool.and_eq_true_iff.mp hw).2 h
  | arr xs =>
    rw [WFb] at hw
    exact WFbList_mem hw (mem_enumFields_val h)
  | null => cases h
  | bool b => cases h
  | num n => cases h
  | str s => cases h
  | date ms => cases h

theorem keyVals_nodup : ∀ {a : JSValue}, WFb a = true →
    ((keyVals a).map Prod.fst).Nodup := by
  intro a hw
  cases a with
  | obj fs =>
    rw [WFb] at hw
    exact (nodupKeys_iff _).mp (Bool.and_eq_true_iff.mp hw).1
  | arr xs => exact enumFields_keys_nodup xs 0
  | null => simp [keyVals]
  | bool b => simp [keyVals]
  | num n => simp [keyVals]
  | str s => simp [keyVals]
  | date ms => simp [keyVals]

theorem lookup_of_mem_nodup {β : Type} : ∀ {l : List (String × β)} {k : String} {v : β},
    (l.map Prod.fst).Nodup → (k, v) ∈ l → l.lookup k = some v := by
  intro l
  induction l with
  | nil => intro k v _ h; cases h
  | cons kv rest ih =>
    intro k v hnd h
    obtain ⟨k1, v1⟩ := kv
    simp only [List.map_cons, List.nodup_cons] at hnd
    rcases List.mem_cons.mp h with h | h
    · cases h
      rw [List.lookup]
      simp
    · rename (k, v) ∈ rest => hrest
      have hk : k ≠ k1 := by
        intro hkk
        subst hkk
        exact hnd.1 (List.mem_map.mpr ⟨(k, v), hrest, rfl⟩)
      rw [List.lookup]
      have : (k == k1) = false := by simpa using hk
      rw [this]
      exact ih hnd.2 hrest

theorem vsize_pos : ∀ a : JSValue, 0 < vsize a := by
  intro a
  cases a <;> simp [vsize] <;> omega

theorem keysMatch_iff : ∀ (l kvB : List (String × JSValue)),
    keysMatch l kvB = true ↔
      ∀ p ∈ l, ∃ vb, kvB.lookup p.1 = some vb ∧ isEqual p.2 vb = true := by
  intro l kvB
  induction l with
  | nil => simp [keysMatch]
  | cons kv rest ih =>
    obtain ⟨k, va⟩ := kv
    rw [keysMatch]
    cases hl : kvB.lookup k with
    | some vb => simp [hl, ih, Bool.and_eq_true_iff, and_comm]
    | none => simp [hl]

theorem isEqual_refl_aux : ∀ (n : Nat) (a : JSValue), vsize a ≤ n → WFb a = true →
    isEqual a a = true := by
  intro n
  induction n with
  | zero =>
    intro a ha _
    have := vsize_pos a
    omega
  | succ n ih =>
    intro a ha hw
    rw [isEqual]
    by_cases hjs : jsEq a a = true
    · simp [hjs]
    · have hguards : isNull a = false ∧ jsTypeof a = "object" := by
        cases a <;> simp_all [jsEq, isNull, jsTypeof]
      have hjsf : jsEq a a = false := Bool.eq_false_iff.mpr hjs
      simp only [hjsf, Bool.false_eq_true, if_false, hguards.1, hguards.2,
        Bool.or_self, bne_self_eq_false, beq_self_eq_true, Bool.true_and]
      rw [keysMatch_iff]
      intro p hp
      obtain ⟨k, v⟩ := p
      refine ⟨v, lookup_of_mem_nodup (keyVals_nodup hw) hp, ?_⟩
      have h1 := mem_vsizeFields_lt hp
      have h2 := keyVals_vsizeFields_lt a
      exact ih v (by omega) (WF_mem hw hp)

theorem isEqual_refl : ∀ a : JSValue, WFb a = true → isEqual a a = true :=
  fun a hw => isEqual_refl_aux (vsize a) a (Nat.le_refl _) hw

theorem beq_comm_any {α : Type} [DecidableEq α] [BEq α] [LawfulBEq α] (a b : α) :
    (a == b) = (b == a) := by
  by_cases h : a = b
  · subst h; rfl
  · have h1 : (a == b) = false := beq_eq_false_iff_ne.mpr h
    have h2 : (b == a) = false := beq_eq_false_iff_ne.mpr (Ne.symm h)
    rw [h1, h2]

theorem jsEq_symm : ∀ a b : JSValue, jsEq a b = jsEq b a := by
  intro a b
  cases a <;> cases b <;> first | rfl | exact beq_comm_any _ _

theorem isEqual_symm_aux : ∀ (n : Nat) (a b : JSValue),
    vsize a + vsize b ≤ n → WFb a = true → WFb b = true →
    isEqual a b = true → isEqual b a = true := by
  intro n
  induction n with
  | zero =>
    intro a b hab _ _ _
    have := vsize_pos a
    have := vsize_pos b
    omega
  | succ n ih =>
    intro a b hab hwa hwb h
    by_cases hjs : jsEq a b = true
    · have hjs2 : jsEq b a = true := by rw [jsEq_symm b a]; exact hjs
      rw [isEqual, hjs2]
      simp
    · have hjsf : jsEq a b = false := Bool.eq_false_iff.mpr hjs
      have hjsf2 : jsEq b a = false := by rw [jsEq_symm b a]; exact hjsf
      rw [isEqual] at h
      rw [hjsf] at h
      simp only [Bool.false_eq_true, if_false] at h
      cases hna : isNull a with
      | true => rw [hna] at h; simp at h
      | false =>
      cases hnb : isNull b with
      | true => rw [hna, hnb] at h; simp at h
      | false =>
      rw [hna, hnb] at h
      simp only [Bool.or_self, Bool.false_eq_true, if_false] at h
      by_cases hto : jsTypeof a = jsTypeof b
      case neg =>
        have hbne : (jsTypeof a != jsTypeof b) = true := by
          simp [bne_iff_ne]
          exact hto
        rw [hbne] at h
        simp at h
      case pos =>
      have hbneq : (jsTypeof a != jsTypeof b) = false := by simp [hto]
      rw [hbneq] at h
      simp only [Bool.false_eq_true, if_false] at h
      by_cases hobja : jsTypeof a = "object"
      case neg =>
        have hbne : (jsTypeof a != "object") = true := by
          simp [bne_iff_ne]
          exact hobja
        rw [hbne] at h
        simp at h
      case pos =>
      have hA : (jsTypeof a != "object") = false := by simp [hobja]
      rw [hA] at h
      simp only [Bool.false_eq_true, if_false, Bool.and_eq_true, beq_iff_eq] at h
      obtain ⟨hlen, hkm⟩ := h
      have hobjb : jsTypeof b = "object" := by rw [← hto]; exact hobja
      have h2A : (jsTypeof b != jsTypeof a) = false := by simp [hto]
      have h2B : (jsTypeof b != "object") = false := by simp [hobjb]
      rw [isEqual, hjsf2]
      simp only [Bool.false_eq_true, if_false, hna, hnb, Bool.or_self, h2A, h2B,
        Bool.and_eq_true, beq_iff_eq]
      refine ⟨hlen.symm, ?_⟩
      rw [keysMatch_iff] at hkm ⊢
      intro p hpB
      obtain ⟨k, vb⟩ := p
      have hsub : ((keyVals a).map Prod.fst) ⊆ ((keyVals b).map Prod.fst) := by
        intro x hx
        obtain ⟨⟨k1, v1⟩, hm, hfst⟩ := List.mem_map.mp hx
        obtain ⟨vb1, hlook, _⟩ := hkm (k1, v1) hm
        exact List.mem_map.mpr ⟨(k1, vb1), lookup_mem hlook, hfst⟩
      have hndA := keyVals_nodup hwa
      have hndB := keyVals_nodup hwb
      have hlenk : ((keyVals b).map Prod.fst).length ≤ ((keyVals a).map Prod.fst).length := by
        simp [List.length_map, hlen]
      have hperm := (List.subperm_of_subset hndA hsub).perm_of_length_le hlenk
      have hkA : k ∈ (keyVals a).map Prod.fst :=
        hperm.mem_iff.mpr (List.mem_map.mpr ⟨(k, vb), hpB, rfl⟩)
      obtain ⟨⟨k1, va⟩, hmemA, hfst⟩ := List.mem_map.mp hkA
      have hk1 : k1 = k := hfst
      subst hk1
      obtain ⟨vb2, hlookB, hEq⟩ := hkm (k1, va) hmemA
      have hlookB2 := lookup_of_mem_nodup hndB hpB
      rw [hlookB2] at hlookB
      have hvb : vb = vb2 := by injection hlookB
      subst hvb
      refine ⟨va, lookup_of_mem_nodup hndA hmemA, ?_⟩
      have s1 := mem_vsizeFields_lt hmemA
      have s2 := mem_vsizeFields_lt hpB
      have s3 := keyVals_vsizeFields_lt a
      have s4 := keyVals_vsizeFields_lt b
      exact ih va vb (by omega) (WF_mem hwa hmemA) (WF_mem hwb hpB) hEq

theorem isEqual_symm : ∀ a b : JSValue, WFb a = true → WFb b = true →
    isEqual a b = isEqual b a := by
  intro a b hwa hwb
  cases hab : isEqual a b with
  | true =>
    exact (isEqual_symm_aux (vsize a + vsize b) a b (Nat.le_refl _) hwa hwb hab).symm
  | false =>
    cases hba : isEqual b a with
    | false => rfl
    | true =>
      have := isEqual_symm_aux (vsize b + vsize a) b a (Nat.le_refl _) hwb hwa hba
      rw [this] at hab
      exact hab.symm

/-- Nested demo value with containers and a Date, duplicate-free keys. -/
def c10A : JSValue := .obj [("k", .arr [.num 1, .date 5]), ("m", .str "s")]

/-- Second demo value of a different container shape. -/
def c10B : JSValue := .arr [.bool true, .null]

/-- C10 fails on the code: two Date values denoting different instants are
reported equal by the diff engine's deep equality, because Dates are
compared as objects with no own enumerable properties. -/
theorem C10_counterexample :
    isEqual (.date 100) (.date 200) = true ∧ (100 : Int) ≠ 200 := by
  constructor
  · simp [isEqual, jsEq, isNull, jsTypeof, keyVals, keysMatch]
  · decide

/-- C10 amended: deep equality is reflexive and symmetric for every pair of
well-formed values (duplicate-free object keys, as the JavaScript runtime
guarantees) and structural over nested containers, but Date values carry no
own enumerable properties, so every two Dates compare equal regardless of
instant. -/
theorem C10_amended :
    ∀ a b : JSValue, WFb a = true → WFb b = true →
      isEqual a a = true ∧ isEqual a b = isEqual b a ∧
      (∀ t1 t2 : Int, isEqual (.date t1) (.date t2) = true) := by
  intro a b hwa hwb
  refine ⟨isEqual_refl a hwa, isEqual_symm a b hwa hwb, ?_⟩
  intro t1 t2
  rw [isEqual]
  simp [jsEq, isNull, jsTypeof, keyVals, keysMatch]

/-- Closed instance of C10 amended on two nested well-formed values. -/
theorem C10_witness :
    WFb c10A = true ∧ WFb c10B = true ∧
    (isEqual c10A c10A = true ∧ isEqual c10A c10B = isEqual c10B c10A ∧
      (∀ t1 t2 : Int, isEqual (.date t1) (.date t2) = true)) :=
  ⟨rfl, rfl, C10_amended c10A c10B rfl rfl⟩

theorem self_kind : ∀ ov : JSValue,
    (jsTypeof ov == "object" && !(isNull ov) && jsTypeof ov == "object"
      && !(isNull ov) && (isArr ov == isArr ov)) = true ∨ jsEq ov ov = true := by
  intro ov
  cases ov <;> simp [jsTypeof, isNull, isArr, jsEq]

theorem dateFreeFields_mem : ∀ {fs : List (String × JSValue)} {k : String} {v : JSValue},
    dateFreeFields fs = true → (k, v) ∈ fs → dateFree v = true := by
  intro fs
  induction fs with
  | nil => intro k v _ h; cases h
  | cons kv rest ih =>
    intro k v hdf h
    rw [dateFreeFields] at hdf
    rcases List.mem_cons.mp h with h | h
    · subst h
      exact (Bool.and_eq_true_iff.mp hdf).1
    · exact ih (Bool.and_eq_true_iff.mp hdf).2 h

theorem dateFreeList_mem : ∀ {xs : List JSValue} {v : JSValue},
    dateFreeList xs = true → v ∈ xs → dateFree v = true := by
  intro xs
  induction xs with
  | nil => intro v _ h; cases h
  | cons x rest ih =>
    intro v hdf h
    rw [dateFreeList] at hdf
    rcases List.mem_cons.mp h with h | h
    · subst h
      exact (Bool.and_eq_true_iff.mp hdf).1
    · exact ih (Bool.and_eq_true_iff.mp hdf).2 h

theorem dateFree_mem_jsKeyVals : ∀ {a : JSValue} {k : String} {v : JSValue},
    dateFree a = true → (k, v) ∈ jsKeyVals a → dateFree v = true := by
  intro a k v hdf h
  cases a with
  | str ss =>
    rw [jsKeyVals] at h
    obtain ⟨c, _, hc⟩ := List.mem_map.mp (mem_enumFields_val h)
    rw [← hc]
    rfl
  | arr xs =>
    rw [dateFree] at hdf
    exact dateFreeList_mem hdf (mem_enumFields_val h)
  | obj fs =>
    rw [dateFree] at hdf
    exact dateFreeFields_mem hdf h
  | date ms => rw [dateFree] at hdf; cases hdf
  | null => cases h
  | bool b => cases h
  | num n => cases h

theorem WF_mem_jsKeyVals : ∀ {a : JSValue} {k : String} {v : JSValue},
    WFb a = true → (k, v) ∈ jsKeyVals a → WFb v = true := by
  intro a k v hw h
  cases a with
  | str ss =>
    rw [jsKeyVals] at h
    obtain ⟨c, _, hc⟩ := List.mem_map.mp (mem_enumFields_val h)
    rw [← hc]
    rfl
  | arr xs => exact WF_mem hw h
  | obj fs => exact WF_mem hw h
  | date ms => cases h
  | null => cases h
  | bool b => cases h
  | num n => cases h

theorem jsKeyVals_nodup : ∀ {a : JSValue}, WFb a = true →
    ((jsKeyVals a).map Prod.fst).Nodup := by
  intro a hw
  cases a with
  | str ss => exact enumFields_keys_nodup _ 0
  | arr xs => exact keyVals_nodup hw
  | obj fs => exact keyVals_nodup hw
  | date ms => simp [jsKeyVals, keyVals]
  | null => simp [jsKeyVals, keyVals]
  | bool b => simp [jsKeyVals, keyVals]
  | num n => simp [jsKeyVals, keyVals]

theorem toJSONconv_id : ∀ {v : JSValue}, dateFree v = true → toJSONconv v = v := by
  intro v hdf
  cases v with
  | date ms => rw [dateFree] at hdf; cases hdf
  | null => rfl
  | bool b => rfl
  | num n => rfl
  | str s => rfl
  | arr xs => rfl
  | obj fs => rfl

theorem generateOps_self_aux : ∀ (n : Nat) (v : JSValue), vsize v ≤ n → WFb v = true →
    dateFree v = true → ∀ path, generateOps v v path = [] := by
  intro n
  induction n with
  | zero =>
    intro v hv _ _ _
    have := vsize_pos v
    omega
  | succ n ih =>
    intro v hv hw hdf path
    have hgen : ∀ l, (∀ p ∈ l, p ∈ jsKeyVals v) →
        genOld (isArr v) v path l = ([], false) := by
      intro l
      induction l with
      | nil => intro _; rw [genOld]
      | cons kv rest ihl =>
        intro hsub
        obtain ⟨k, ov⟩ := kv
        have hmem : (k, ov) ∈ jsKeyVals v := hsub _ (List.mem_cons_self _ _)
        have hlook : (jsKeyVals v).lookup k = some ov :=
          lookup_of_mem_nodup (jsKeyVals_nodup hw) hmem
        have hrest := ihl (fun p hp => hsub p (List.mem_cons_of_mem _ hp))
        rw [genOld]
        split
        next newVal heq =>
          rw [hlook] at heq
          injection heq with heq2
          subst heq2
          by_cases hobj : (jsTypeof ov == "object" && !(isNull ov) && jsTypeof ov == "object"
              && !(isNull ov) && (isArr ov == isArr ov)) = true
          · rw [dif_pos hobj]
            have hb := hobj
            simp only [Bool.and_eq_true, beq_iff_eq] at hb
            have hov : generateOps ov ov (path ++ "/" ++ escapePathComponent k) = [] := by
              apply ih ov ?_ (WF_mem_jsKeyVals hw hmem) (dateFree_mem_jsKeyVals hdf hmem)
              have h1 := mem_jsKeyVals_object_vsize_lt hmem hb.1.1.2
              omega
            rw [hov, hrest]
            simp
          · rw [dif_neg hobj]
            have hjs : jsEq ov ov = true := by
              rcases self_kind ov with hk | hk
              · exact absurd hk hobj
              · exact hk
            rw [if_pos hjs, hrest]
        next heq =>
          rw [hlook] at heq
          cases heq
    rw [generateOps]
    rw [toJSONconv_id hdf]
    rw [hgen _ (fun p hp => List.mem_reverse.mp hp)]
    simp

theorem generateOps_self : ∀ v : JSValue, WFb v = true → dateFree v = true → ∀ path,
    generateOps v v path = [] :=
  fun v hw hdf path => generateOps_self_aux (vsize v) v (Nat.le_refl _) hw hdf path

theorem jsIndex_WF : ∀ {c : JSValue} {k : String} {x : JSValue},
    WFb c = true → jsIndex c k = some x → WFb x = true := by
  intro c k x hw hx
  cases c with
  | obj fs =>
    rw [jsIndex] at hx
    exact WF_mem (a := .obj fs) hw (lookup_mem hx)
  | arr xs =>
    rw [jsIndex] at hx
    by_cases hlen : (k == "length") = true
    · rw [if_pos hlen] at hx
      injection hx with hx2
      subst hx2
      rfl
    · rw [if_neg hlen] at hx
      cases hn : k.toNat? with
      | some m =>
        rw [hn] at hx
        simp only [] at hx
        by_cases hm : (natToStr m == k) = true
        · rw [if_pos hm] at hx
          rw [WFb] at hw
          exact WFbList_mem hw (List.get?_mem hx)
        · rw [if_neg hm] at hx
          cases hx
      | none =>
        rw [hn] at hx
        cases hx
  | str s =>
    rw [jsIndex] at hx
    by_cases hlen : (k == "length") = true
    · rw [if_pos hlen] at hx
      injection hx with hx2
      subst hx2
      rfl
    · rw [if_neg hlen] at hx
      cases hn : k.toNat? with
      | some m =>
        rw [hn] at hx
        simp only [] at hx
        by_cases hm : (natToStr m == k) = true
        · rw [if_pos hm] at hx
          cases hg : s.data.get? m with
          | some ch =>
            rw [hg] at hx
            injection hx with hx2
            subst hx2
            rfl
          | none => rw [hg] at hx; cases hx
        · rw [if_neg hm] at hx
          cases hx
      | none =>
        rw [hn] at hx
        cases hx
  | null => cases hx
  | bool b => cases hx
  | num n => cases hx
  | date ms => cases hx

theorem foldl_pathStep_WF : ∀ (ks : List String) (cur : Option JSValue),
    (∀ c, cur = some c → WFb c = true) →
    ∀ v, ks.foldl pathStep cur = some v → WFb v = true := by
  intro ks
  induction ks with
  | nil =>
    intro cur h v hv
    simp at hv
    exact h v hv
  | cons k ks ih =>
    intro cur h v hv
    rw [List.foldl_cons] at hv
    apply ih (pathStep cur k) ?_ v hv
    intro c hc
    cases cur with
    | none => simp [pathStep] at hc
    | some c0 =>
      have hw0 := h c0 rfl
      rw [pathStep] at hc
      by_cases ht : truthy c0 = true
      · rw [if_pos ht] at hc
        exact jsIndex_WF hw0 hc
      · rw [if_neg ht] at hc
        cases hc

theorem getPathValue_WF : ∀ {st : JSValue} {p : String} {v : JSValue},
    WFb st = true → getPathValue st p = some v → WFb v = true := by
  intro st p v hw h
  exact foldl_pathStep_WF _ (some st) (fun c hc => by injection hc with h2; rw [← h2]; exact hw) v h

theorem generatePathPatch_self : ∀ (st : JSValue) (ps : List String), WFb st = true →
    DiffEngine.generatePathPatch st st ps = [] := by
  intro st ps hw
  induction ps with
  | nil => rfl
  | cons p ps ih =>
    rw [DiffEngine.generatePathPatch] at ih ⊢
    rw [List.foldr_cons, ih, List.append_nil]
    cases hgp : getPathValue st p with
    | none => simp [optIsEqual]
    | some v => simp [optIsEqual, isEqual_refl v (getPathValue_WF hw hgp)]

/-- C5 fails on the code: watch() itself establishes the baseline, so when
the watched object is mutated between watch() and the first sync(), that
first sync does emit a patch (the cold-start silence only holds while the
object is unchanged since watch). -/
theorem C5_counterexample :
    (StateMirrorWatcher.sync true (some (deepClone c5Init)) c5Mutated none).1 =
      some [{ op := "replace", path := "/x", value := some (.num 2) }] := by
  rw [deepClone_eq]
  simp only [StateMirrorWatcher.sync, DiffEngine.generatePatch, jsonCompare, c5Init, c5Mutated]
  simp [generateOps, genOld.eq_def, genAdds, toJSONconv, jsKeyVals, keyVals, List.lookup,
    jsTypeof, isNull, isArr, jsEq, deepClone, escapePathComponent]
  decide

theorem enumFields_length : ∀ (xs : List JSValue) (i : Nat),
    (enumFields i xs).length = xs.length := by
  intro xs
  induction xs with
  | nil => intro i; rfl
  | cons x rest ih => intro i; simp [enumFields, ih]

theorem genAdds_nil_length : ∀ (kvNew : List (String × JSValue)) (path : String),
    (genAdds [] kvNew path).length = kvNew.length := by
  intro kvNew path
  induction kvNew with
  | nil => rfl
  | cons kv rest ih =>
    rw [show genAdds [] (kv :: rest) path =
      ({ op := "add", path := path ++ "/" ++ escapePathComponent kv.1,
         value := some (deepClone kv.2) } : Operation) :: genAdds [] rest path from rfl]
    simp [ih]

theorem dateToISO_data_length_ne_zero : ∀ ms : Int, (dateToISO ms).data.length ≠ 0 := by
  intro ms
  have hlen : ∀ s : String, s.data.length = s.length := fun s => rfl
  rw [hlen]
  unfold dateToISO
  simp only [String.length_append]
  have hz : ("Z" : String).length = 1 := rfl
  omega

theorem genOld_nil : ∀ (b : Bool) (o : JSValue) (p : String),
    genOld b o p [] = ([], false) := by
  intro b o p
  rw [genOld]

theorem genOld_cons_some : ∀ (mirrorIsArr : Bool) (obj : JSValue) (path key : String)
    (oldVal newVal : JSValue) (rest : List (String × JSValue)),
    (jsKeyVals obj).lookup key = some newVal →
    (jsTypeof oldVal == "object" && !(isNull oldVal) && jsTypeof newVal == "object"
      && !(isNull newVal) && (isArr oldVal == isArr newVal)) = true →
    genOld mirrorIsArr obj path ((key, oldVal) :: rest) =
      (generateOps oldVal newVal (path ++ "/" ++ escapePathComponent key) ++
        (genOld mirrorIsArr obj path rest).1, (genOld mirrorIsArr obj path rest).2) := by
  intro mirrorIsArr obj path key oldVal newVal rest hl hB2
  rw [genOld]
  split
  next newVal2 heq =>
    rw [hl] at heq
    injection heq with heq2
    subst heq2
    rw [dif_pos hB2]
  next heq =>
    rw [hl] at heq
    cases heq

theorem generateOps_keep : ∀ (mirror obj0 : JSValue) (path : String),
    (genOld (isArr mirror) (toJSONconv obj0) path (jsKeyVals mirror).reverse).2 = false →
    (jsKeyVals (toJSONconv obj0)).length = (jsKeyVals mirror).length →
    generateOps mirror obj0 path =
      (genOld (isArr mirror) (toJSONconv obj0) path (jsKeyVals mirror).reverse).1 := by
  intro mirror obj0 path h2 hlen
  rw [generateOps]
  simp [h2, hlen]

theorem generateOps_empty_mirror : ∀ (mirror obj0 : JSValue) (path : String),
    jsKeyVals mirror = [] →
    (jsKeyVals (toJSONconv obj0)).length ≠ 0 →
    generateOps mirror obj0 path = genAdds [] (jsKeyVals (toJSONconv obj0)) path := by
  intro mirror obj0 path hm hn
  have hc : ((jsKeyVals (toJSONconv obj0)).length == (0 : Nat)) = false := by
    simp only [beq_eq_false_iff_ne]
    exact hn
  rw [generateOps]
  simp only [hm, List.reverse_nil, List.length_nil]
  rw [genOld_nil]
  simp [hc]

theorem dateOps_ne_nil : ∀ (ms : Int) (path : String),
    generateOps (.date ms) (.date ms) path ≠ [] := by
  intro ms path
  have hL := dateToISO_data_length_ne_zero ms
  have hlen : (jsKeyVals (toJSONconv (JSValue.date ms))).length =
      (dateToISO ms).data.length := by
    show (enumFields 0 ((dateToISO ms).data.map
      (fun c => JSValue.str (String.singleton c)))).length = _
    rw [enumFields_length, List.length_map]
  rw [generateOps_empty_mirror (JSValue.date ms) (JSValue.date ms) path rfl
    (by rw [hlen]; exact hL)]
  intro hnil
  have hc := congrArg List.length hnil
  rw [genAdds_nil_length, hlen] at hc
  exact hL hc

theorem c5Date_compare_ne_nil : jsonCompare c5DateState c5DateState ≠ [] := by
  have hconv : toJSONconv c5DateState = c5DateState := rfl
  have hrev : (jsKeyVals c5DateState).reverse = [("d", JSValue.date 100)] := rfl
  have h1 : genOld (isArr c5DateState) c5DateState "" [("d", JSValue.date 100)] =
      (generateOps (JSValue.date 100) (JSValue.date 100)
        ("" ++ "/" ++ escapePathComponent "d") ++ [], false) := by
    rw [genOld_cons_some (isArr c5DateState) c5DateState "" "d"
      (JSValue.date 100) (JSValue.date 100) [] rfl rfl]
    rw [genOld_nil]
  have h2 : (genOld (isArr c5DateState) (toJSONconv c5DateState) ""
      (jsKeyVals c5DateState).reverse).2 = false := by
    rw [hconv, hrev, h1]
  have hlen2 : (jsKeyVals (toJSONconv c5DateState)).length =
      (jsKeyVals c5DateState).length := rfl
  rw [jsonCompare, generateOps_keep c5DateState c5DateState "" h2 hlen2, hconv, hrev, h1]
  simp only [List.append_nil]
  exact dateOps_ne_nil 100 ("" ++ "/" ++ escapePathComponent "d")

/-- C5 amended: when the diff engine has no prior snapshot, generatePatch
only establishes the baseline and reports no changes; the first sync()
after watch() emits no patch provided the watched object has not been
mutated since watch() (watch() sets the baseline via setInitialState, so a
mutation in between makes the first sync emit precisely that delta) and
holds no Date values; a Date member makes even an unmutated first sync
emit, because the library's toJSON conversion diffs the cloned Date
against its live counterpart's ISO string rendering. -/
theorem C5_amended :
    ∀ (cur st : JSValue) (paths : Option (List String)),
      DiffEngine.generatePatch none cur paths =
        ({ operations := [], hasChanges := false }, some (deepClone cur)) ∧
      (WFb st = true → dateFree st = true →
        (StateMirrorWatcher.sync true (some (deepClone st)) st paths).1 = none) ∧
      (StateMirrorWatcher.sync true (some (deepClone c5DateState)) c5DateState none).1 ≠
        none := by
  intro cur st paths
  refine ⟨rfl, ?_, ?_⟩
  · intro hw hdf
    rw [deepClone_eq]
    have hgp : DiffEngine.generatePatch (some st) st paths =
        ({ operations := [], hasChanges := false }, some (deepClone st)) := by
      cases paths with
      | none => simp [DiffEngine.generatePatch, jsonCompare, generateOps_self st hw hdf]
      | some ps =>
        by_cases hlen : ps.length > 0
        · simp [DiffEngine.generatePatch, hlen, generatePathPatch_self st ps hw]
        · simp [DiffEngine.generatePatch, hlen, jsonCompare, generateOps_self st hw hdf]
    simp [StateMirrorWatcher.sync, hgp]
  · rw [deepClone_eq]
    have hne : (jsonCompare c5DateState c5DateState).length ≠ 0 :=
      fun h => c5Date_compare_ne_nil (List.length_eq_zero.mp h)
    simp [StateMirrorWatcher.sync, DiffEngine.generatePatch, hne]

/-- Closed instance of C5 amended: cold start reports no changes, an
unmutated Date-free object produces no patch at the first sync, and the
Date-holding object does emit. -/
theorem C5_witness :
    (DiffEngine.generatePatch none c5Init none =
      ({ operations := [], hasChanges := false }, some (deepClone c5Init)) ∧
    (WFb c5Init = true → dateFree c5Init = true →
      (StateMirrorWatcher.sync true (some (deepClone c5Init)) c5Init none).1 = none) ∧
    (StateMirrorWatcher.sync true (some (deepClone c5DateState)) c5DateState none).1 ≠
      none) ∧
    WFb c5Init = true ∧ dateFree c5Init = true :=
  ⟨C5_amended c5Init c5Init none, rfl, rfl⟩

theorem gpp_agree : ∀ (pv c1 c2 : JSValue) (ps : List String),
    (∀ p ∈ ps, getPathValue c1 p = getPathValue c2 p) →
    DiffEngine.generatePathPatch pv c1 ps = DiffEngine.generatePathPatch pv c2 ps := by
  intro pv c1 c2 ps h
  induction ps with
  | nil => rfl
  | cons p ps ih =>
    simp only [DiffEngine.generatePathPatch, List.foldr_cons] at ih ⊢
    rw [h p (List.mem_cons_self _ _)]
    rw [ih (fun q hq => h q (List.mem_cons_of_mem _ hq))]

theorem gpp_scoped : ∀ (pv c : JSValue) (ps : List String) (op : Operation),
    op ∈ DiffEngine.generatePathPatch pv c ps →
    ∃ p ∈ ps, ∃ rest, op.path = "/" ++ p ++ rest := by
  intro pv c ps
  induction ps with
  | nil => intro op hop; cases hop
  | cons p ps ih =>
    intro op hop
    simp only [DiffEngine.generatePathPatch, List.foldr_cons] at hop
    rcases List.mem_append.mp hop with hop | hop
    · by_cases heq : optIsEqual (getPathValue pv p) (getPathValue c p) = true
      · rw [if_pos heq] at hop
        cases hop
      · rw [if_neg heq] at hop
        obtain ⟨orig, _, horig⟩ := List.mem_map.mp hop
        refine ⟨p, List.mem_cons_self _ _, ?_⟩
        rw [← horig]
        by_cases hempty : (orig.path == "") = true
        · refine ⟨"", ?_⟩
          simp [hempty, String.append_empty]
        · refine ⟨orig.path, ?_⟩
          simp [hempty]
    · obtain ⟨q, hq, rest, hrest⟩ := ih op hop
      exact ⟨q, List.mem_cons_of_mem _ hq, rest, hrest⟩

/-- C6: with a configured non-empty paths filter, diff generation is a
function of the filtered subtrees only -- two current states that agree on
every filtered path produce identical operations, whatever the values
outside the filter -- and every emitted operation's path lies under one of
the filtered paths. -/
theorem C6_path_scoping :
    ∀ (pv c1 c2 : JSValue) (ps : List String),
      ps ≠ [] →
      (∀ p ∈ ps, getPathValue c1 p = getPathValue c2 p) →
      (DiffEngine.generatePatch (some pv) c1 (some ps)).1.operations =
        (DiffEngine.generatePatch (some pv) c2 (some ps)).1.operations ∧
      ∀ op ∈ (DiffEngine.generatePatch (some pv) c1 (some ps)).1.operations,
        ∃ p ∈ ps, ∃ rest, op.path = "/" ++ p ++ rest := by
  intro pv c1 c2 ps hne hagree
  have hlen : ps.length > 0 := List.length_pos.mpr hne
  have hred : ∀ c : JSValue, (DiffEngine.generatePatch (some pv) c (some ps)).1.operations =
      DiffEngine.generatePathPatch pv c ps := by
    intro c
    simp [DiffEngine.generatePatch, hlen]
  rw [hred, hred]
  exact ⟨gpp_agree pv c1 c2 ps hagree, fun op hop => gpp_scoped pv c1 ps op hop⟩

/-- Baseline snapshot for the path-scoping instance. -/
def c6Prev : JSValue := .obj [("a", .num 1), ("b", .num 2)]

/-- Current state with the filtered field changed. -/
def c6CurA : JSValue := .obj [("a", .num 5), ("b", .num 2)]

/-- Current state agreeing on the filtered field but mutated outside the
filter. -/
def c6CurB : JSValue := .obj [("a", .num 5), ("b", .num 99)]

/-- Closed instance of C6 on the filter [a]: the state mutated at b outside
the filter produces the same operations, all rooted under /a. -/
theorem C6_witness :
    (["a"] : List String) ≠ [] ∧
    (∀ p ∈ (["a"] : List String), getPathValue c6CurA p = getPathValue c6CurB p) ∧
    ((DiffEngine.generatePatch (some c6Prev) c6CurA (some ["a"])).1.operations =
        (DiffEngine.generatePatch (some c6Prev) c6CurB (some ["a"])).1.operations ∧
      ∀ op ∈ (DiffEngine.generatePatch (some c6Prev) c6CurA (some ["a"])).1.operations,
        ∃ p ∈ (["a"] : List String), ∃ rest, op.path = "/" ++ p ++ rest) := by
  have hagree : ∀ p ∈ (["a"] : List String), getPathValue c6CurA p = getPathValue c6CurB p := by
    intro p hp
    rcases List.mem_singleton.mp hp with rfl
    rfl
  exact ⟨by simp, hagree, C6_path_scoping c6Prev c6CurA c6CurB ["a"] (by simp) hagree⟩

/-- Closed instance of C3 amended at the worked example patches. -/
theorem C3_witness :
    (ConflictEngine.mergeResolver c1Local c1Incoming).id ≠ c1Local.id ∧
    (ConflictEngine.mergeResolver c1Local c1Incoming).id ≠ c1Incoming.id ∧
    (ConflictEngine.mergeResolver c1Local c1Incoming).version =
      max c1Local.version c1Incoming.version + 1 ∧
    (ConflictEngine.pathBasedResolver c1Local c1Incoming).id ≠ c1Local.id ∧
    (ConflictEngine.pathBasedResolver c1Local c1Incoming).id ≠ c1Incoming.id ∧
    (ConflictEngine.pathBasedResolver c1Local c1Incoming).version =
      max c1Local.version c1Incoming.version + 1 :=
  C3_amended c1Local c1Incoming
